import Mathlib

/-!
Verification of the Prompt-Manager-Pro core: the Dexie-backed record store
(`js/db.js`), the import/export merge engine (`importData`/`exportData` in
`js/db.js`), and the greedy line diff (`computeDiff` in the diff-view
component).

The IndexedDB tables are modelled as Lean lists in insertion order.  The
Dexie primitives used by the code are embedded with their documented
semantics:

* `Table.add(obj)` rejects with a `ConstraintError` when the primary key
  already exists, otherwise inserts the record;
* `Table.update(key, changes)` applies the given fields to the record with
  that primary key and resolves with the number of updated records — `0`
  when the key is absent; it never rejects for a missing key;
* `Table.get(key)` resolves with the record or `undefined`;
* `where('promptId').equals(x).toArray()` returns the records whose
  `promptId` equals `x`;
* `where('promptId').equals(x).reverse().sortBy('createdAt')` returns those
  records sorted by `createdAt` in descending order.

`Date.now()` and `crypto.randomUUID()` are passed in as explicit
parameters (`now`, freshly generated ids); fallible operations return
`Except String`.
-/

namespace PromptManager

/-- A record of the `prompts` table (`createPrompt` in `js/db.js` fixes its
fields: id, title, description, tags, createdAt, updatedAt, archived). -/
structure Prompt where
  id : String
  title : String
  description : String
  tags : List String
  createdAt : Nat
  updatedAt : Nat
  archived : Bool
deriving DecidableEq, Repr

/-- A record of the `versions` table (`createVersion` in `js/db.js` fixes
its fields: id, promptId, version label, content, notes, createdAt,
updatedAt). -/
structure Version where
  id : String
  promptId : String
  version : String
  content : String
  notes : String
  createdAt : Nat
  updatedAt : Nat
deriving DecidableEq, Repr

/-- The whole database: the two Dexie tables, each as a list of records in
insertion order. -/
structure DB where
  prompts : List Prompt
  versions : List Version
deriving DecidableEq, Repr

/-- Dexie `db.prompts.add(p)`: rejects with a `ConstraintError` when the
primary key `p.id` is already present, else appends the record. -/
def addPrompt (table : List Prompt) (p : Prompt) : Except String (List Prompt) :=
  if table.any (fun q => q.id = p.id) then .error "ConstraintError"
  else .ok (table ++ [p])

/-- Dexie `db.versions.add(v)`: rejects with a `ConstraintError` when the
primary key `v.id` is already present, else appends the record. -/
def addVersion (table : List Version) (v : Version) : Except String (List Version) :=
  if table.any (fun w => w.id = v.id) then .error "ConstraintError"
  else .ok (table ++ [v])

/-- A set of fields passed to `updatePrompt`: each field of the JS
`updates` object is present (`some`) or absent (`none`).  Callers in the
repository only ever pass the mutable fields modelled here. -/
structure PromptPatch where
  title : Option String
  description : Option String
  tags : Option (List String)
  archived : Option Bool
deriving DecidableEq, Repr

/-- The empty JS object `{}` used by `createVersion` to touch the parent
prompt. -/
def emptyPatch : PromptPatch := ⟨none, none, none, none⟩

/-- Applying `{...updates, updatedAt: Date.now()}` to a prompt record:
every supplied field overwrites the stored one and `updatedAt` is set to
`now`. -/
def applyPatch (p : Prompt) (u : PromptPatch) (now : Nat) : Prompt :=
  { p with
    title := u.title.getD p.title
    description := u.description.getD p.description
    tags := u.tags.getD p.tags
    archived := u.archived.getD p.archived
    updatedAt := now }

/-- `updatePrompt(id, updates)` from `js/db.js`: builds
`{...updates, updatedAt: Date.now()}` and hands it to Dexie
`db.prompts.update(id, updateData)`.  Dexie's `update` modifies the record
with that primary key when present and resolves with `0` (without
rejecting) when absent, so the operation always succeeds. -/
def updatePrompt (db : DB) (id : String) (u : PromptPatch) (now : Nat) :
    Except String DB :=
  .ok { db with
          prompts := db.prompts.map fun p =>
            if p.id = id then applyPatch p u now else p }

/-- `getPrompt(id)` from `js/db.js`: Dexie `db.prompts.get(id)`. -/
def getPrompt (db : DB) (id : String) : Option Prompt :=
  db.prompts.find? fun p => p.id = id

/-- `getVersion(id)` from `js/db.js`: Dexie `db.versions.get(id)`. -/
def getVersion (db : DB) (id : String) : Option Version :=
  db.versions.find? fun v => v.id = id

/-- Descending `createdAt` order on versions, the sort relation realized by
Dexie `reverse().sortBy('createdAt')`. -/
def createdDesc (a b : Version) : Prop := b.createdAt ≤ a.createdAt

instance : DecidableRel createdDesc :=
  fun a b => Nat.decLe b.createdAt a.createdAt

instance : IsTotal Version createdDesc :=
  ⟨fun a b => Nat.le_total b.createdAt a.createdAt⟩

instance : IsTrans Version createdDesc :=
  ⟨fun _ _ _ h h' => Nat.le_trans h' h⟩

/-- `getVersionsByPrompt(promptId)` from `js/db.js`:
`db.versions.where('promptId').equals(promptId).reverse().sortBy('createdAt')`
— the versions of that prompt, sorted by `createdAt` descending. -/
def getVersionsByPrompt (db : DB) (promptId : String) : List Version :=
  (db.versions.filter fun v => v.promptId = promptId).insertionSort createdDesc

/-- `getLatestVersion(promptId)` from `js/db.js`: the first element of
`getVersionsByPrompt`, or `null` when the list is empty. -/
def getLatestVersion (db : DB) (promptId : String) : Option Version :=
  let versions := getVersionsByPrompt db promptId
  if h : 0 < versions.length then some (versions.get ⟨0, h⟩) else none

/-- `createVersion(promptId, content, notes)` from `js/db.js`: counts the
existing versions of `promptId`, labels the new version
`v<count+1>`, inserts it with both timestamps set to `now`, then touches
the parent prompt through `updatePrompt(promptId, {})` (whose `Date.now()`
sample is `nowTouch`).  The fresh `crypto.randomUUID()` is the parameter
`id`. -/
def createVersion (db : DB) (promptId content notes : String)
    (id : String) (now nowTouch : Nat) : Except String (DB × String) := do
  let existingVersions := db.versions.filter fun v => v.promptId = promptId
  let versionNumber := existingVersions.length + 1
  let versionString := "v" ++ toString versionNumber
  let v : Version :=
    { id := id, promptId := promptId, version := versionString
      content := content, notes := notes, createdAt := now, updatedAt := now }
  let versions' ← addVersion db.versions v
  let db' ← updatePrompt { db with versions := versions' } promptId emptyPatch nowTouch
  return (db', id)

/-- `rollbackToVersion(versionId)` from `js/db.js`: throws
`'Version not found'` when the version is absent; otherwise creates a new
version on the same prompt with the old content and notes
`"Rollback to <old label>"`. -/
def rollbackToVersion (db : DB) (versionId : String)
    (newId : String) (now nowTouch : Nat) : Except String (DB × String) := do
  match getVersion db versionId with
  | none => .error "Version not found"
  | some oldVersion =>
      createVersion db oldVersion.promptId oldVersion.content
        ("Rollback to " ++ oldVersion.version) newId now nowTouch

/-- An import document, the shape produced by `exportData`: the `prompts`
and `versions` arrays.  (`importData` throws `InvalidFormat` when either
array is absent; a well-typed `ImportDoc` always carries both, so that
check is vacuous here.) -/
structure ImportDoc where
  prompts : List Prompt
  versions : List Version
deriving DecidableEq, Repr

/-- The counters returned by `importData`. -/
structure ImportResult where
  imported : Nat
  skipped : Nat
  merged : Nat
deriving DecidableEq, Repr

/-- The inner loop of `importData`'s merge branch: for each incoming
version, insert it into the `versions` table unless a version with its id
appears in `existingVersions` (the snapshot of the local prompt's versions
taken before the loop), incrementing `merged` per insertion. -/
def mergeVersions (existingVersions : List Version) :
    List Version → List Version → Nat → Except String (List Version × Nat)
  | table, [], merged => .ok (table, merged)
  | table, v :: vs, merged =>
    if existingVersions.any (fun w => w.id = v.id) then
      mergeVersions existingVersions table vs merged
    else
      match addVersion table v with
      | .error e => .error e
      | .ok table' => mergeVersions existingVersions table' vs (merged + 1)

/-- The version inserts of `importData`'s new-prompt branch: add every
version of the incoming prompt, in document order. -/
def addVersions : List Version → List Version → Except String (List Version)
  | table, [] => .ok table
  | table, v :: vs =>
      match addVersion table v with
      | .error e => .error e
      | .ok table' => addVersions table' vs

/-- The `for (const prompt of data.prompts)` loop of `importData`,
threading the evolving database and the three counters.  Per incoming
prompt: if a local prompt with its id exists and `merge` is false, count it
as skipped; if it exists and `merge` is true, run `mergeVersions` on the
incoming versions of that prompt and then overwrite the local record with
`{...prompt, updatedAt: Date.now()}`; otherwise add the prompt and all its
incoming versions and count it as imported. -/
def importLoop (data : ImportDoc) (merge : Bool) (now : Nat) :
    List Prompt → DB → ImportResult → Except String (DB × ImportResult)
  | [], db, r => .ok (db, r)
  | p :: ps, db, r =>
    match db.prompts.find? (fun q => q.id = p.id) with
    | some _ =>
      if merge then
        match mergeVersions (getVersionsByPrompt db p.id) db.versions
            (data.versions.filter fun v => v.promptId = p.id) r.merged with
        | .error e => .error e
        | .ok (versions', merged') =>
            importLoop data merge now ps
              ⟨db.prompts.map fun q =>
                  if q.id = p.id then { p with updatedAt := now } else q,
                versions'⟩
              { r with merged := merged' }
      else
        importLoop data merge now ps db { r with skipped := r.skipped + 1 }
    | none =>
      match addPrompt db.prompts p with
      | .error e => .error e
      | .ok prompts' =>
        match addVersions db.versions
            (data.versions.filter fun v => v.promptId = p.id) with
        | .error e => .error e
        | .ok versions' =>
            importLoop data merge now ps ⟨prompts', versions'⟩
              { r with imported := r.imported + 1 }

/-- `importData(data, merge)` from `js/db.js`: runs the prompt loop over
the document with all three counters starting at zero. -/
def importData (db : DB) (data : ImportDoc) (merge : Bool) (now : Nat) :
    Except String (DB × ImportResult) :=
  importLoop data merge now data.prompts db ⟨0, 0, 0⟩

/-- The annotation of one output line of the diff engine. -/
inductive DiffType where
  | added
  | removed
  | unchanged
deriving DecidableEq, Repr

/-- One output entry of `computeDiff`: `{type, content}`. -/
structure DiffLine where
  type : DiffType
  content : String
deriving DecidableEq, Repr

/-- `computeDiff(oldLines, newLines)` from the diff-view component: a
greedy single-pass walk over the two line arrays.  The lists model the
arrays from the current indices `i`, `j` onward, so `oldLines[i]` is the
head and the `oldLines[i+1]` lookahead is `head?` of the tail (the JS
comparison `oldLines[i+1] === newLine` is false when `i+1` is out of
range, i.e. when the tail is empty). -/
def computeDiff : List String → List String → List DiffLine
  | [], [] => []
  | [], newLine :: newRest =>
      ⟨.added, newLine⟩ :: computeDiff [] newRest
  | oldLine :: oldRest, [] =>
      ⟨.removed, oldLine⟩ :: computeDiff oldRest []
  | oldLine :: oldRest, newLine :: newRest =>
    if oldLine = newLine then
      ⟨.unchanged, oldLine⟩ :: computeDiff oldRest newRest
    else if oldRest.head? = some newLine ∧ ¬ newRest.head? = some oldLine then
      ⟨.removed, oldLine⟩ :: computeDiff oldRest (newLine :: newRest)
    else if newRest.head? = some oldLine ∧ ¬ oldRest.head? = some newLine then
      ⟨.added, newLine⟩ :: computeDiff (oldLine :: oldRest) newRest
    else
      ⟨.removed, oldLine⟩ :: ⟨.added, newLine⟩ :: computeDiff oldRest newRest
termination_by oldLines newLines => oldLines.length + newLines.length
decreasing_by all_goals simp_wf <;> omega

/-- `renderDiff`'s input preparation: both texts are split on `'\n'` and
handed to `computeDiff`. -/
def diff (oldText newText : String) : List DiffLine :=
  computeDiff (oldText.splitOn "\n") (newText.splitOn "\n")

/-- The lines a diff attributes to the old text: contents of the entries
that are not additions (`unchanged` or `removed`), in output order. -/
def oldSide (d : List DiffLine) : List String :=
  (d.filter fun l => l.type ≠ DiffType.added).map fun l => l.content

/-- The lines a diff attributes to the new text: contents of the entries
that are not removals (`unchanged` or `added`), in output order. -/
def newSide (d : List DiffLine) : List String :=
  (d.filter fun l => l.type ≠ DiffType.removed).map fun l => l.content

/-! ### Concrete records used by witnesses -/

/-- A concrete prompt used by witnesses. -/
def pW : Prompt := ⟨"p1", "Title", "", [], 1, 1, false⟩

/-- A concrete version of `pW` used by witnesses. -/
def vW : Version := ⟨"v1id", "p1", "v1", "A", "", 2, 2⟩

/-! ### Helper lemmas -/

/-- The empty update `{}` only refreshes `updatedAt`. -/
lemma applyPatch_empty (p : Prompt) (now : Nat) :
    applyPatch p emptyPatch now = { p with updatedAt := now } := rfl

/-- Closed form of a successful `createVersion`: with a fresh id, the new
version is appended with label `v<count+1>` and every prompt matching
`promptId` gets `updatedAt := nowTouch`. -/
lemma createVersion_ok (db : DB) (promptId content notes id : String)
    (now nowTouch : Nat) (hfresh : ∀ w ∈ db.versions, w.id ≠ id) :
    createVersion db promptId content notes id now nowTouch =
      .ok (⟨db.prompts.map fun p =>
              if p.id = promptId then { p with updatedAt := nowTouch } else p,
            db.versions ++
              [⟨id, promptId,
                "v" ++ toString
                  ((db.versions.filter fun v => v.promptId = promptId).length + 1),
                content, notes, now, now⟩]⟩, id) := by
  have hcond : (db.versions.any fun w => w.id = id) = false := by
    simp only [List.any_eq_false, decide_eq_true_eq]
    exact fun w hw => hfresh w hw
  simp [createVersion, addVersion, hcond, updatePrompt, applyPatch, emptyPatch]
  rfl

/-! ### C1, C2, C3, C7 -/

/-- C1: in a state with exactly `N` stored versions for `promptId`,
`createVersion` persists a new version labelled `v(N+1)` and then
refreshes the parent prompt's `updatedAt` through the empty update, so the
parent's `updatedAt` becomes the touch time even though no content field
of the prompt changed. -/
theorem createVersion_label_and_touch (db : DB) (promptId content notes id : String)
    (now nowTouch : Nat) (N : Nat)
    (hN : N = (db.versions.filter fun v => v.promptId = promptId).length)
    (hfresh : ∀ w ∈ db.versions, w.id ≠ id) :
    ∃ db', createVersion db promptId content notes id now nowTouch = .ok (db', id) ∧
      db'.versions = db.versions ++
        [⟨id, promptId, "v" ++ toString (N + 1), content, notes, now, now⟩] ∧
      db'.prompts = db.prompts.map
        (fun p => if p.id = promptId then { p with updatedAt := nowTouch } else p) ∧
      ∀ p ∈ db'.prompts, p.id = promptId → p.updatedAt = nowTouch := by
  subst hN
  refine ⟨_, createVersion_ok db promptId content notes id now nowTouch hfresh,
    rfl, rfl, ?_⟩
  intro p hp hpid
  obtain ⟨q, hq, hmap⟩ := List.mem_map.mp hp
  by_cases h : q.id = promptId
  · rw [if_pos h] at hmap
    rw [← hmap]
  · rw [if_neg h] at hmap
    exact absurd (hmap ▸ hpid) h

/-- Witness for C1 at a concrete store holding one prompt and one
version. -/
theorem createVersion_label_and_touch_witness :
    ∃ db', createVersion ⟨[pW], [vW]⟩ "p1" "B" "" "v2id" 5 6 = .ok (db', "v2id") ∧
      db'.versions = [vW] ++ [⟨"v2id", "p1", "v" ++ toString (1 + 1), "B", "", 5, 5⟩] ∧
      db'.prompts = [pW].map
        (fun p => if p.id = "p1" then { p with updatedAt := 6 } else p) ∧
      ∀ p ∈ db'.prompts, p.id = "p1" → p.updatedAt = 6 :=
  createVersion_label_and_touch ⟨[pW], [vW]⟩ "p1" "B" "" "v2id" 5 6 1
    (by decide) (by decide)

/-- C2: rolling back to a stored version leaves it untouched and appends a
new, distinctly-identified version on the same prompt with the same
content and notes `"Rollback to <old label>"`; an unknown version id fails
with `'Version not found'`. -/
theorem rollbackToVersion_spec (db : DB) (versionId newId : String)
    (now nowTouch : Nat) :
    (getVersion db versionId = none →
      rollbackToVersion db versionId newId now nowTouch = .error "Version not found") ∧
    ∀ v, getVersion db versionId = some v → (∀ w ∈ db.versions, w.id ≠ newId) →
      ∃ db', rollbackToVersion db versionId newId now nowTouch = .ok (db', newId) ∧
        newId ≠ v.id ∧ v ∈ db'.versions ∧
        ∃ newV, db'.versions = db.versions ++ [newV] ∧ newV.id = newId ∧
          newV.promptId = v.promptId ∧ newV.content = v.content ∧
          newV.notes = "Rollback to " ++ v.version := by
  constructor
  · intro h
    simp [rollbackToVersion, h]
  · intro v hv hfresh
    have hmem : v ∈ db.versions := List.mem_of_find?_eq_some hv
    have hne : newId ≠ v.id := fun h => hfresh v hmem h.symm
    have hok := createVersion_ok db v.promptId v.content
      ("Rollback to " ++ v.version) newId now nowTouch hfresh
    refine ⟨⟨db.prompts.map fun p =>
        if p.id = v.promptId then { p with updatedAt := nowTouch } else p,
      db.versions ++
        [⟨newId, v.promptId,
          "v" ++ toString
            ((db.versions.filter fun w => w.promptId = v.promptId).length + 1),
          v.content, "Rollback to " ++ v.version, now, now⟩]⟩,
      ?_, hne, List.mem_append_left _ hmem,
      ⟨⟨newId, v.promptId,
        "v" ++ toString
          ((db.versions.filter fun w => w.promptId = v.promptId).length + 1),
        v.content, "Rollback to " ++ v.version, now, now⟩,
        rfl, rfl, rfl, rfl, rfl⟩⟩
    simp [rollbackToVersion, hv, hok]

/-- Witness for C2 at a concrete store. -/
theorem rollbackToVersion_spec_witness :
    ∃ db', rollbackToVersion ⟨[pW], [vW]⟩ "v1id" "v3id" 7 8 = .ok (db', "v3id") ∧
      "v3id" ≠ vW.id ∧ vW ∈ db'.versions ∧
      ∃ newV, db'.versions = [vW] ++ [newV] ∧ newV.id = "v3id" ∧
        newV.promptId = vW.promptId ∧ newV.content = vW.content ∧
        newV.notes = "Rollback to " ++ vW.version :=
  (rollbackToVersion_spec ⟨[pW], [vW]⟩ "v1id" "v3id" 7 8).2 vW
    (by decide) (by decide)

/-- C3: `getVersionsByPrompt` returns exactly the stored versions of that
prompt in descending `createdAt` order, and `getLatestVersion` is its
first element (absent when there is none). -/
theorem listVersions_sorted_latest (db : DB) (promptId : String) :
    (getVersionsByPrompt db promptId).Perm
      (db.versions.filter fun v => v.promptId = promptId) ∧
    List.Sorted createdDesc (getVersionsByPrompt db promptId) ∧
    getLatestVersion db promptId = (getVersionsByPrompt db promptId).head? := by
  refine ⟨List.perm_insertionSort _ _, List.sorted_insertionSort _ _, ?_⟩
  cases hl : getVersionsByPrompt db promptId <;> simp [getLatestVersion, hl]

/-- C7 counterexample: `updatePrompt` on an id absent from storage does not
fail — Dexie's `update` resolves with `0` updated records — so the call
returns successfully with the store unchanged instead of propagating a
NotFound error. -/
theorem updatePrompt_absent_no_error :
    updatePrompt ⟨[], []⟩ "p1" emptyPatch 0 = .ok ⟨[], []⟩ := rfl

/-- C7 amended: `updatePrompt` never fails; on an absent id it leaves the
store unchanged (silent no-op, no NotFound error), and on a present id it
merges the given fields into the record and refreshes `updatedAt` to
now. -/
theorem updatePrompt_spec (db : DB) (id : String) (u : PromptPatch) (now : Nat) :
    (∃ db', updatePrompt db id u now = .ok db') ∧
    ((∀ p ∈ db.prompts, p.id ≠ id) → updatePrompt db id u now = .ok db) ∧
    ∀ db', updatePrompt db id u now = .ok db' →
      db'.prompts = db.prompts.map
        (fun p => if p.id = id then applyPatch p u now else p) ∧
      ∀ p ∈ db.prompts, p.id = id →
        applyPatch p u now ∈ db'.prompts ∧ (applyPatch p u now).updatedAt = now := by
  refine ⟨⟨_, rfl⟩, ?_, ?_⟩
  · intro h
    have hmap : db.prompts.map (fun p => if p.id = id then applyPatch p u now else p) =
        db.prompts := by
      conv_rhs => rw [← List.map_id db.prompts]
      exact List.map_congr_left fun p hp => if_neg (h p hp)
    simp [updatePrompt, hmap]
  · intro db' h
    have hdb : db' = { db with
        prompts := db.prompts.map fun p =>
          if p.id = id then applyPatch p u now else p } :=
      (Except.ok.inj h).symm
    subst hdb
    refine ⟨rfl, fun p hp hpid => ⟨?_, rfl⟩⟩
    exact List.mem_map.mpr ⟨p, hp, if_pos hpid⟩

/-- Witness for C7's amended statement: an absent id is a silent no-op. -/
theorem updatePrompt_spec_witness :
    updatePrompt ⟨[pW], []⟩ "zz" emptyPatch 3 = .ok ⟨[pW], []⟩ :=
  (updatePrompt_spec ⟨[pW], []⟩ "zz" emptyPatch 3).2.1 (by decide)

/-! ### C8, C9, C10 — the diff engine -/

/-- C8 counterexample: when **both** one-line lookaheads match
(`old[i+1] == new[j]` and `new[j+1] == old[i]`), the code does *not* emit
`old[i]` as removed and advance `i` only — it falls through to the
removed+added branch and advances both sides.  On `["a","b"]` vs
`["b","a"]` both lookaheads match at the first step, and the output is not
the one the claim's lookahead rule would produce. -/
theorem computeDiff_lookahead_counterexample :
    computeDiff ["a", "b"] ["b", "a"] =
      [⟨.removed, "a"⟩, ⟨.added, "b"⟩, ⟨.removed, "b"⟩, ⟨.added, "a"⟩] ∧
    computeDiff ["a", "b"] ["b", "a"] ≠
      ⟨.removed, "a"⟩ :: computeDiff ["b"] ["b", "a"] := by
  constructor <;> simp [computeDiff]

/-- C8 amended: the greedy walk as the code implements it.  The one-line
lookahead rules advance a single side only when **exactly one** lookahead
matches; when both match, or neither matches, the current lines are
emitted as removed+added and both sides advance.  Once one side is
exhausted, the remaining lines of the other are pure additions or
removals. -/
theorem computeDiff_greedy_walk (o n : String) (os ns : List String) :
    computeDiff [] [] = [] ∧
    computeDiff [] (n :: ns) = ⟨DiffType.added, n⟩ :: computeDiff [] ns ∧
    computeDiff (o :: os) [] = ⟨DiffType.removed, o⟩ :: computeDiff os [] ∧
    (o = n → computeDiff (o :: os) (n :: ns) =
      ⟨DiffType.unchanged, o⟩ :: computeDiff os ns) ∧
    (o ≠ n → os.head? = some n → ns.head? ≠ some o →
      computeDiff (o :: os) (n :: ns) =
        ⟨DiffType.removed, o⟩ :: computeDiff os (n :: ns)) ∧
    (o ≠ n → ns.head? = some o → os.head? ≠ some n →
      computeDiff (o :: os) (n :: ns) =
        ⟨DiffType.added, n⟩ :: computeDiff (o :: os) ns) ∧
    (o ≠ n → (os.head? = some n ↔ ns.head? = some o) →
      computeDiff (o :: os) (n :: ns) =
        ⟨DiffType.removed, o⟩ :: ⟨DiffType.added, n⟩ :: computeDiff os ns) := by
  refine ⟨by simp [computeDiff], by simp [computeDiff], by simp [computeDiff],
    ?_, ?_, ?_, ?_⟩
  · intro h
    simp [computeDiff, h]
  · intro hne h1 h2
    simp [computeDiff, hne, h1, h2]
  · intro hne h1 h2
    simp [computeDiff, hne, h1, h2]
  · intro hne hiff
    by_cases h1 : os.head? = some n
    · simp [computeDiff, hne, h1, hiff.mp h1]
    · have h2 : ¬ ns.head? = some o := fun h => h1 (hiff.mpr h)
      simp [computeDiff, hne, h1, h2]

/-- Witness for C8's amended statement: the removed-advance-`i` rule with
exactly one matching lookahead, and the both-lookaheads case. -/
theorem computeDiff_greedy_walk_witness :
    computeDiff ["a", "c"] ["c"] = ⟨DiffType.removed, "a"⟩ :: computeDiff ["c"] ["c"] ∧
    computeDiff ["a", "b"] ["b", "a"] =
      ⟨DiffType.removed, "a"⟩ :: ⟨DiffType.added, "b"⟩ :: computeDiff ["b"] ["a"] :=
  ⟨(computeDiff_greedy_walk "a" "c" ["c"] []).2.2.2.2.1
      (by decide) (by decide) (by decide),
    (computeDiff_greedy_walk "a" "b" ["b"] ["a"]).2.2.2.2.2.2
      (by decide) (by decide)⟩

/-- The diff of a list of lines against itself is that list marked
unchanged. -/
lemma computeDiff_self (l : List String) :
    computeDiff l l = l.map fun s => ⟨DiffType.unchanged, s⟩ := by
  induction l with
  | nil => simp [computeDiff]
  | cons a l ih => simp [computeDiff, ih]

/-- C9: `diff(X, X)` yields only `unchanged` entries, and their lines are
exactly X's lines in order. -/
theorem diff_self (X : String) :
    (∀ l ∈ diff X X, l.type = DiffType.unchanged) ∧
    (diff X X).map (fun l => l.content) = X.splitOn "\n" := by
  unfold diff
  rw [computeDiff_self]
  constructor
  · intro l hl
    obtain ⟨s, _, rfl⟩ := List.mem_map.mp hl
    rfl
  · rw [List.map_map]
    have hid : ((fun l : DiffLine => l.content) ∘
        fun s => (⟨DiffType.unchanged, s⟩ : DiffLine)) = fun s => s := rfl
    rw [hid]
    exact List.map_id' (X.splitOn "\n")

/-- The two output projections recover the two inputs: entries not marked
`added` carry the old lines in order, entries not marked `removed` carry
the new lines in order. -/
lemma computeDiff_conserves (os ns : List String) :
    oldSide (computeDiff os ns) = os ∧ newSide (computeDiff os ns) = ns := by
  induction os, ns using computeDiff.induct with
  | case1 => simp [computeDiff, oldSide, newSide]
  | case2 n ns ih =>
      simp [computeDiff, oldSide, newSide] at ih ⊢
      exact ih
  | case3 o os ih =>
      simp [computeDiff, oldSide, newSide] at ih ⊢
      exact ih
  | case4 os n ns ih =>
      simp [computeDiff, oldSide, newSide] at ih ⊢
      exact ih
  | case5 o os n ns hne hc ih =>
      simp [computeDiff, hne, hc.1, hc.2, oldSide, newSide] at ih ⊢
      exact ih
  | case6 o os n ns hne hnc hc ih =>
      simp [computeDiff, hne, hc.1, hc.2, oldSide, newSide] at ih ⊢
      exact ih
  | case7 o os n ns hne hnc1 hnc2 ih =>
      simp [computeDiff, hne, hnc1, hnc2, oldSide, newSide] at ih ⊢
      exact ih

/-- C10: the diff conserves both inputs — the non-`added` entries list the
old text's lines exactly and in order, the non-`removed` entries the new
text's lines. -/
theorem diff_conserves_inputs (X Y : String) :
    oldSide (diff X Y) = X.splitOn "\n" ∧ newSide (diff X Y) = Y.splitOn "\n" :=
  computeDiff_conserves (X.splitOn "\n") (Y.splitOn "\n")

/-! ### Import helper lemmas -/

/-- A successful Dexie add appends the record; its key was absent. -/
lemma addVersion_eq_ok {table : List Version} {v : Version} {t' : List Version}
    (h : addVersion table v = .ok t') :
    t' = table ++ [v] ∧ (table.any fun w => w.id = v.id) = false := by
  by_cases hc : (table.any fun w => w.id = v.id) = true
  · simp [addVersion, hc] at h
  · rw [Bool.not_eq_true] at hc
    simp [addVersion, hc] at h
    exact ⟨h.symm, hc⟩

/-- A successful Dexie add appends the record; its key was absent. -/
lemma addPrompt_eq_ok {table : List Prompt} {p : Prompt} {t' : List Prompt}
    (h : addPrompt table p = .ok t') :
    t' = table ++ [p] ∧ (table.any fun q => q.id = p.id) = false := by
  by_cases hc : (table.any fun q => q.id = p.id) = true
  · simp [addPrompt, hc] at h
  · rw [Bool.not_eq_true] at hc
    simp [addPrompt, hc] at h
    exact ⟨h.symm, hc⟩

/-- A successful `mergeVersions` appends exactly the incoming versions
whose ids are absent from the snapshot, and counts them. -/
lemma mergeVersions_eq_ok (snap : List Version) :
    ∀ (vs table : List Version) (m : Nat) {t' : List Version} {m' : Nat},
      mergeVersions snap table vs m = .ok (t', m') →
      t' = table ++ vs.filter (fun v => !(snap.any fun w => w.id = v.id)) ∧
      m' = m + (vs.filter (fun v => !(snap.any fun w => w.id = v.id))).length
  | [], table, m, t', m', h => by
      simp [mergeVersions] at h
      simp [h.1.symm, h.2.symm]
  | v :: vs, table, m, t', m', h => by
      by_cases hc : (snap.any fun w => w.id = v.id) = true
      · rw [mergeVersions, if_pos (by simpa using hc)] at h
        obtain ⟨h1, h2⟩ := mergeVersions_eq_ok snap vs table m h
        simp [List.filter_cons, hc, h1, h2]
      · rw [Bool.not_eq_true] at hc
        rw [mergeVersions, if_neg (by simp [hc])] at h
        cases ha : addVersion table v with
        | error e => rw [ha] at h; cases h
        | ok table' =>
            rw [ha] at h
            obtain ⟨ha1, _⟩ := addVersion_eq_ok ha
            obtain ⟨h1, h2⟩ := mergeVersions_eq_ok snap vs table' (m + 1) h
            subst ha1
            subst h1
            subst h2
            constructor
            · simp [List.filter_cons, hc, List.append_assoc]
            · simp [List.filter_cons, hc]
              omega

/-- A successful `addVersions` appends all the given versions in order. -/
lemma addVersions_eq_ok :
    ∀ (vs table : List Version) {t' : List Version},
      addVersions table vs = .ok t' → t' = table ++ vs
  | [], table, t', h => by
      simp [addVersions] at h
      simp [h.symm]
  | v :: vs, table, t', h => by
      rw [addVersions] at h
      cases ha : addVersion table v with
      | error e => rw [ha] at h; cases h
      | ok table' =>
          rw [ha] at h
          obtain ⟨ha1, _⟩ := addVersion_eq_ok ha
          subst ha1
          simpa [List.append_assoc] using addVersions_eq_ok vs (table ++ [v]) h

/-- `any` is invariant under the descending sort of the snapshot. -/
lemma insertionSort_any (l : List Version) (q : Version → Bool) :
    (l.insertionSort createdDesc).any q = l.any q := by
  cases hb : l.any q with
  | true =>
      obtain ⟨x, hx, hqx⟩ := List.any_eq_true.mp hb
      exact List.any_eq_true.mpr
        ⟨x, ((List.perm_insertionSort createdDesc l).mem_iff).mpr hx, hqx⟩
  | false =>
      rw [Bool.eq_false_iff]
      intro hcon
      obtain ⟨x, hx, hqx⟩ := List.any_eq_true.mp hcon
      have h2 : l.any q = true := List.any_eq_true.mpr
        ⟨x, ((List.perm_insertionSort createdDesc l).mem_iff).mp hx, hqx⟩
      rw [hb] at h2
      cases h2

/-- A prompt id with a witness in the table is found by `find?`. -/
lemma find?_of_exists :
    ∀ (ps : List Prompt) (i : String), (∃ p ∈ ps, p.id = i) →
      ∃ q, ps.find? (fun p => p.id = i) = some q
  | [], i, h => absurd h (by simp)
  | a :: ps, i, h => by
      by_cases ha : a.id = i
      · exact ⟨a, List.find?_cons_of_pos _ (by simpa using ha)⟩
      · obtain ⟨p, hp, hpi⟩ := h
        rcases List.mem_cons.mp hp with rfl | hp'
        · exact absurd hpi ha
        · obtain ⟨q, hq⟩ := find?_of_exists ps i ⟨p, hp', hpi⟩
          exact ⟨q, by rw [List.find?_cons_of_neg _ (by simpa using ha), hq]⟩

/-! ### C4, C5 — import merge and skip -/

/-- The incoming prompt used by the C4 witness (same id as `pW`, different
metadata). -/
def pW2 : Prompt := ⟨"p1", "T2", "", [], 1, 5, false⟩

/-- An incoming version absent from the local store, used by the C4
witness. -/
def vX : Version := ⟨"v2id", "p1", "v2", "B", "", 4, 4⟩

/-- C4: importing a document whose prompt already exists locally with
merge=true inserts exactly those incoming versions of that prompt whose
ids are absent among the local versions of the prompt, counting one
`merged` per insertion; locally stored versions stay unchanged (a prefix
of the result); and the local prompt record is overwritten with the
incoming prompt's fields with `updatedAt` refreshed to the import time. -/
theorem importData_merge_spec (db : DB) (p : Prompt) (vs : List Version)
    (now : Nat) (db' : DB) (r : ImportResult)
    (hex : ∃ q ∈ db.prompts, q.id = p.id)
    (h : importData db ⟨[p], vs⟩ true now = .ok (db', r)) :
    db'.prompts = db.prompts.map
      (fun q => if q.id = p.id then { p with updatedAt := now } else q) ∧
    db'.versions = db.versions ++
      ((vs.filter fun v => v.promptId = p.id).filter fun v =>
        !((db.versions.filter fun w => w.promptId = p.id).any fun w =>
          w.id = v.id)) ∧
    r = ⟨0, 0, ((vs.filter fun v => v.promptId = p.id).filter fun v =>
        !((db.versions.filter fun w => w.promptId = p.id).any fun w =>
          w.id = v.id)).length⟩ := by
  obtain ⟨q, hfind⟩ := find?_of_exists db.prompts p.id hex
  replace h : importLoop ⟨[p], vs⟩ true now [p] db ⟨0, 0, 0⟩ = .ok (db', r) := h
  rw [importLoop, hfind] at h
  cases hm : mergeVersions (getVersionsByPrompt db p.id) db.versions
      (vs.filter fun v => v.promptId = p.id) 0 with
  | error e =>
      rw [hm] at h
      cases h
  | ok pr =>
      obtain ⟨vt, m⟩ := pr
      rw [hm] at h
      replace h : (((⟨db.prompts.map fun q =>
          if q.id = p.id then { p with updatedAt := now } else q, vt⟩ : DB),
          (⟨0, 0, m⟩ : ImportResult)) : DB × ImportResult) = (db', r) :=
        Except.ok.inj h
      obtain ⟨hdb, hr⟩ := Prod.mk.inj h
      obtain ⟨hm1, hm2⟩ := mergeVersions_eq_ok _ _ _ _ hm
      have hfilt :
          (vs.filter fun v => v.promptId = p.id).filter
              (fun v => !((getVersionsByPrompt db p.id).any fun w => w.id = v.id)) =
            (vs.filter fun v => v.promptId = p.id).filter
              (fun v => !((db.versions.filter fun w => w.promptId = p.id).any fun w =>
                w.id = v.id)) :=
        List.filter_congr fun v _ => by
          rw [getVersionsByPrompt, insertionSort_any]
      subst hdb
      subst hr
      refine ⟨rfl, ?_, ?_⟩
      · rw [hm1, hfilt]
      · rw [ImportResult.mk.injEq]
        refine ⟨rfl, rfl, ?_⟩
        rw [hm2, hfilt, Nat.zero_add]

/-- Witness for C4: one matching incoming version is skipped, one new one
is inserted and counted. -/
theorem importData_merge_spec_witness :
    (⟨[⟨"p1", "T2", "", [], 1, 9, false⟩], [vW, vX]⟩ : DB).prompts =
      [pW].map (fun q => if q.id = pW2.id then { pW2 with updatedAt := 9 } else q) ∧
    (⟨[⟨"p1", "T2", "", [], 1, 9, false⟩], [vW, vX]⟩ : DB).versions = [vW] ++
      (([vW, vX].filter fun v => v.promptId = pW2.id).filter fun v =>
        !(([vW].filter fun w => w.promptId = pW2.id).any fun w => w.id = v.id)) ∧
    (⟨0, 0, 1⟩ : ImportResult) =
      ⟨0, 0, (([vW, vX].filter fun v => v.promptId = pW2.id).filter fun v =>
        !(([vW].filter fun w => w.promptId = pW2.id).any fun w =>
          w.id = v.id)).length⟩ :=
  importData_merge_spec ⟨[pW], [vW]⟩ pW2 [vW, vX] 9
    ⟨[⟨"p1", "T2", "", [], 1, 9, false⟩], [vW, vX]⟩ ⟨0, 0, 1⟩
    (by decide) (by rfl)

/-- The skip loop of C5: with merge=false, a run over prompts that all
exist locally returns the database unchanged and only bumps `skipped`. -/
lemma importLoop_skip_all (data : ImportDoc) (now : Nat) :
    ∀ (ps : List Prompt) (db : DB) (r : ImportResult),
      (∀ p ∈ ps, ∃ q ∈ db.prompts, q.id = p.id) →
      importLoop data false now ps db r =
        .ok (db, ⟨r.imported, r.skipped + ps.length, r.merged⟩)
  | [], db, r, _ => rfl
  | p :: ps, db, r, hex => by
      obtain ⟨q, hfind⟩ :=
        find?_of_exists db.prompts p.id (hex p (List.mem_cons_self p ps))
      rw [importLoop, hfind]
      show importLoop data false now ps db { r with skipped := r.skipped + 1 } =
        .ok (db, ⟨r.imported, r.skipped + (ps.length + 1), r.merged⟩)
      rw [importLoop_skip_all data now ps db { r with skipped := r.skipped + 1 }
        (fun p hp => hex p (List.mem_cons_of_mem _ hp))]
      have harith : r.skipped + 1 + ps.length = r.skipped + (ps.length + 1) := by
        omega
      simp [harith]

/-- C5: with merge=false every incoming prompt that already exists locally
is skipped — the store (the prompt record and all stored versions) is
returned unchanged and only `skipped` is counted, once per prompt, with
`imported = merged = 0`. -/
theorem importData_skip_spec (db : DB) (data : ImportDoc) (now : Nat)
    (hex : ∀ p ∈ data.prompts, ∃ q ∈ db.prompts, q.id = p.id) :
    importData db data false now = .ok (db, ⟨0, data.prompts.length, 0⟩) := by
  unfold importData
  rw [importLoop_skip_all data now data.prompts db ⟨0, 0, 0⟩ hex]
  rw [Nat.zero_add]

/-- Witness for C5, the spec's scenario: importing a document whose single
prompt `p1` already exists locally with merge=false returns
`skipped=1, imported=0, merged=0` and leaves the store unchanged. -/
theorem importData_skip_spec_witness :
    importData ⟨[pW], [vW]⟩ ⟨[pW], [vW]⟩ false 9 =
      .ok (⟨[pW], [vW]⟩, ⟨0, 1, 0⟩) :=
  importData_skip_spec ⟨[pW], [vW]⟩ ⟨[pW], [vW]⟩ 9 (by decide)

/-! ### C6 — import idempotence -/

/-- Some prompt in the table carries the given id. -/
def promptExists (ps : List Prompt) (i : String) : Prop := ∃ p ∈ ps, p.id = i

/-- Some stored version carries the given version's promptId and id. -/
def versionCovered (vt : List Version) (v : Version) : Prop :=
  ∃ w ∈ vt, w.promptId = v.promptId ∧ w.id = v.id

/-- The merge-branch prompt overwrite keeps every existing prompt id. -/
lemma promptExists_map_overwrite (ps : List Prompt) (p : Prompt) (now : Nat)
    (i : String) (h : promptExists ps i) :
    promptExists
      (ps.map fun q => if q.id = p.id then { p with updatedAt := now } else q) i := by
  obtain ⟨q, hq, hqi⟩ := h
  by_cases hc : q.id = p.id
  · refine ⟨{ p with updatedAt := now },
      List.mem_map.mpr ⟨q, hq, by rw [if_pos hc]⟩, ?_⟩
    show p.id = i
    rw [← hc, hqi]
  · exact ⟨q, List.mem_map.mpr ⟨q, hq, by rw [if_neg hc]⟩, hqi⟩

/-- The import loop only appends versions and never loses a prompt id. -/
lemma importLoop_mono (data : ImportDoc) (now : Nat) (mrg : Bool)
    (ps : List Prompt) :
    ∀ (db : DB) (r : ImportResult) (db' : DB) (r' : ImportResult),
      importLoop data mrg now ps db r = .ok (db', r') →
      db.versions <+: db'.versions ∧
      ∀ i, promptExists db.prompts i → promptExists db'.prompts i := by
  induction ps with
  | nil =>
      intro db r db' r' h
      obtain ⟨h1, _⟩ := Prod.mk.inj (Except.ok.inj h)
      subst h1
      exact ⟨List.prefix_refl _, fun _ hi => hi⟩
  | cons p ps ih =>
      intro db r db' r' h
      rw [importLoop] at h
      split at h
      · -- find? = some
        split at h
        · -- merge = true
          split at h
          · cases h
          · rename_i versions' merged' hm
            obtain ⟨ih1, ih2⟩ := ih _ _ _ _ h
            obtain ⟨hm1, _⟩ := mergeVersions_eq_ok _ _ _ _ hm
            subst hm1
            refine ⟨(List.prefix_append db.versions _).trans ih1, ?_⟩
            intro i hi
            exact ih2 i (promptExists_map_overwrite _ _ _ _ hi)
        · -- merge = false : skip
          exact ih _ _ _ _ h
      · -- find? = none : new prompt
        split at h
        · cases h
        · rename_i prompts' ha
          split at h
          · cases h
          · rename_i versions' hav
            obtain ⟨ih1, ih2⟩ := ih _ _ _ _ h
            obtain ⟨ha1, _⟩ := addPrompt_eq_ok ha
            have hav1 := addVersions_eq_ok _ _ hav
            subst ha1
            subst hav1
            refine ⟨(List.prefix_append db.versions _).trans ih1, ?_⟩
            intro i hi
            apply ih2
            obtain ⟨q2, hq2, hq2i⟩ := hi
            exact ⟨q2, List.mem_append_left _ hq2, hq2i⟩

/-- After a successful merge-mode run, every document prompt id exists and
every document version of a document prompt is covered by id. -/
lemma importLoop_post (data : ImportDoc) (now : Nat) (ps : List Prompt) :
    ∀ (db : DB) (r : ImportResult) (db' : DB) (r' : ImportResult),
      importLoop data true now ps db r = .ok (db', r') →
      ∀ p ∈ ps, promptExists db'.prompts p.id ∧
        ∀ v ∈ data.versions, v.promptId = p.id → versionCovered db'.versions v := by
  induction ps with
  | nil =>
      intro db r db' r' _ p hp
      cases hp
  | cons p0 ps ih =>
      intro db r db' r' h p hp
      rw [importLoop] at h
      split at h
      · -- find? = some
        rename_i q hf
        rw [if_pos rfl] at h
        split at h
        · cases h
        · rename_i versions' merged' hm
          obtain ⟨hm1, _⟩ := mergeVersions_eq_ok _ _ _ _ hm
          have hmono := importLoop_mono data now true ps _ _ _ _ h
          rcases List.mem_cons.mp hp with rfl | hp'
          · constructor
            · apply hmono.2
              apply promptExists_map_overwrite
              exact ⟨q, List.mem_of_find?_eq_some hf,
                by simpa using List.find?_some hf⟩
            · intro v hv hvp
              by_cases hin :
                  ((getVersionsByPrompt db p.id).any fun w => w.id = v.id) = true
              · obtain ⟨w, hw, hwid⟩ := List.any_eq_true.mp hin
                have hw' : w ∈ db.versions.filter (fun w2 => w2.promptId = p.id) :=
                  ((List.perm_insertionSort createdDesc _).mem_iff).mp hw
                have hwmem : w ∈ db.versions := List.mem_of_mem_filter hw'
                have hwpid : w.promptId = p.id := by
                  simpa using List.of_mem_filter hw'
                refine ⟨w, hmono.1.subset ?_, by rw [hwpid, hvp],
                  of_decide_eq_true hwid⟩
                rw [hm1]
                exact List.mem_append_left _ hwmem
              · refine ⟨v, hmono.1.subset ?_, rfl, rfl⟩
                rw [hm1]
                apply List.mem_append_right
                refine List.mem_filter.mpr ⟨List.mem_filter.mpr ⟨hv, by simp [hvp]⟩, ?_⟩
                rw [Bool.not_eq_true] at hin
                simp [hin]
          · exact ih _ _ _ _ h p hp'
      · -- find? = none : new prompt branch
        rename_i hf
        split at h
        · cases h
        · rename_i prompts' ha
          split at h
          · cases h
          · rename_i versions' hav
            have hmono := importLoop_mono data now true ps _ _ _ _ h
            obtain ⟨ha1, _⟩ := addPrompt_eq_ok ha
            have hav1 := addVersions_eq_ok _ _ hav
            rcases List.mem_cons.mp hp with rfl | hp'
            · constructor
              · apply hmono.2
                subst ha1
                exact ⟨p, List.mem_append_right _ (by simp), rfl⟩
              · intro v hv hvp
                refine ⟨v, hmono.1.subset ?_, rfl, rfl⟩
                rw [hav1]
                exact List.mem_append_right _
                  (List.mem_filter.mpr ⟨hv, by simp [hvp]⟩)
            · exact ih _ _ _ _ h p hp'

/-- A merge run over incoming versions that are all present in the
snapshot inserts nothing and counts nothing. -/
lemma mergeVersions_all_present (snap : List Version) :
    ∀ (vs table : List Version) (m : Nat),
      (∀ v ∈ vs, (snap.any fun w => w.id = v.id) = true) →
      mergeVersions snap table vs m = .ok (table, m)
  | [], _, _, _ => rfl
  | v :: vs, table, m, hall => by
      rw [mergeVersions, if_pos (hall v (List.mem_cons_self v vs))]
      exact mergeVersions_all_present snap vs table m
        (fun v2 hv2 => hall v2 (List.mem_cons_of_mem _ hv2))

/-- A merge-mode run over prompts that all exist, whose document versions
are all covered by id, changes no version and counts nothing. -/
lemma importLoop_covered (data : ImportDoc) (now : Nat) (ps : List Prompt) :
    ∀ (db : DB) (r : ImportResult) (db' : DB) (r' : ImportResult),
      (∀ p ∈ ps, promptExists db.prompts p.id) →
      (∀ p ∈ ps, ∀ v ∈ data.versions, v.promptId = p.id →
        versionCovered db.versions v) →
      importLoop data true now ps db r = .ok (db', r') →
      db'.versions = db.versions ∧
      r'.imported = r.imported ∧ r'.merged = r.merged := by
  induction ps with
  | nil =>
      intro db r db' r' _ _ h
      obtain ⟨h1, h2⟩ := Prod.mk.inj (Except.ok.inj h)
      subst h1
      subst h2
      exact ⟨rfl, rfl, rfl⟩
  | cons p ps ih =>
      intro db r db' r' hex hcov h
      have hall : ∀ v ∈ (data.versions.filter fun v2 => v2.promptId = p.id),
          ((getVersionsByPrompt db p.id).any fun w => w.id = v.id) = true := by
        intro v hv
        have hvd : v ∈ data.versions := List.mem_of_mem_filter hv
        have hvp : v.promptId = p.id := by simpa using List.of_mem_filter hv
        obtain ⟨w, hw, hwp, hwi⟩ :=
          hcov p (List.mem_cons_self p ps) v hvd hvp
        apply List.any_eq_true.mpr
        refine ⟨w, ((List.perm_insertionSort createdDesc _).mem_iff).mpr
          (List.mem_filter.mpr ⟨hw, by simp [hwp, hvp]⟩), by simp [hwi]⟩
      rw [importLoop] at h
      split at h
      · rename_i q hfq
        rw [if_pos rfl] at h
        split at h
        · rename_i e hm
          rw [mergeVersions_all_present _ _ _ _ hall] at hm
          cases hm
        · rename_i versions' merged' hm
          rw [mergeVersions_all_present _ _ _ _ hall] at hm
          obtain ⟨hv1, hv2⟩ := Prod.mk.inj (Except.ok.inj hm)
          subst hv1
          subst hv2
          obtain ⟨h1, h2, h3⟩ := ih
            ⟨db.prompts.map fun q2 =>
                if q2.id = p.id then { p with updatedAt := now } else q2,
              db.versions⟩
            { r with merged := r.merged } db' r'
            (fun p2 hp2 =>
              promptExists_map_overwrite _ _ _ _
                (hex p2 (List.mem_cons_of_mem _ hp2)))
            (fun p2 hp2 => hcov p2 (List.mem_cons_of_mem _ hp2)) h
          exact ⟨h1, h2, h3⟩
      · rename_i hfq
        obtain ⟨q, hq⟩ :=
          find?_of_exists db.prompts p.id (hex p (List.mem_cons_self p ps))
        rw [hq] at hfq
        cases hfq

/-- C6: importing the same document twice with merge=true imports nothing
on the second run (every document prompt id now exists locally) and, the
document being identical, merges nothing either (every document version id
of a document prompt is already present). -/
theorem importData_idempotent (db : DB) (data : ImportDoc) (now1 now2 : Nat)
    (db1 db2 : DB) (r1 r2 : ImportResult)
    (h1 : importData db data true now1 = .ok (db1, r1))
    (h2 : importData db1 data true now2 = .ok (db2, r2)) :
    r2.imported = 0 ∧ r2.merged = 0 := by
  have hpost := importLoop_post data now1 data.prompts db ⟨0, 0, 0⟩ db1 r1 h1
  obtain ⟨_, hi, hm⟩ := importLoop_covered data now2 data.prompts db1 ⟨0, 0, 0⟩ db2 r2
    (fun p hp => (hpost p hp).1) (fun p hp => (hpost p hp).2) h2
  exact ⟨hi, hm⟩

/-- Witness for C6: a one-prompt, one-version document imported twice into
an empty store. -/
theorem importData_idempotent_witness :
    (⟨0, 0, 0⟩ : ImportResult).imported = 0 ∧
    (⟨0, 0, 0⟩ : ImportResult).merged = 0 :=
  importData_idempotent ⟨[], []⟩ ⟨[pW], [vW]⟩ 1 2 ⟨[pW], [vW]⟩
    ⟨[{pW with updatedAt := 2}], [vW]⟩ ⟨1, 0, 0⟩ ⟨0, 0, 0⟩ rfl rfl

end PromptManager
